import Mathlib

/-!
Shallow embedding of the `bof` byte codec (`src/bof/byte.py`) and of the
OPC UA block builder (`src/bof/opcua/opcuaframe.py`), together with proofs
about the behaviour claimed in the specification.

Python byte strings are modelled as `List Nat` (each entry a byte value),
Python `None`-able strings as `Option String`, and functions that can raise
as `Except PyError`.  The process-wide default byte order (`_BYTEORDER` in
`byte.py`) is threaded through every function as an explicit first argument
`g`, mirroring the fact that each function reads the global at call time.
-/

/-- Kinds of Python exceptions the embedded code can raise. -/
inductive PyError where
  | programmingError   -- BOFProgrammingError
  | nameError          -- NameError (use of an undefined variable)
  | assertionError     -- failed `assert`
  | overflowError      -- int.to_bytes overflow
  | recursionError     -- interpreter recursion limit reached
deriving Repr, DecidableEq

namespace bof

/-- `byteorder = byteorder if byteorder else _BYTEORDER` from the source:
an absent or empty (falsy) explicit order falls back to the global `g`. -/
def resolveOrder (g : String) (byteorder : Option String) : String :=
  match byteorder with
  | some b => if b = "" then g else b
  | none => g

/-- Halving recursion for `int.bit_length()`, driven by a structural fuel
that the wrapper instantiates with `n` itself (enough since `n / 2 < n`). -/
def bitLenAux : Nat → Nat → Nat
  | 0, _ => 0
  | fuel + 1, n => if n = 0 then 0 else bitLenAux fuel (n / 2) + 1

/-- `int.bit_length()` for a natural number. -/
def bit_length (n : Nat) : Nat :=
  bitLenAux n n

/-- `get_size` from `byte.py`: length of a byte string, or
`(bit_length + 7) // 8` for an integer. -/
def get_size : Sum (List Nat) Nat → Nat
  | .inl array => array.length
  | .inr n => (bit_length n + 7) / 8

/-- Low-order-first bit expansion: the loop
`for i in range(size): t.append(n & 1); n >>= 1` of `int_to_bit_list`. -/
def bitsLE : Nat → Nat → List Nat
  | 0, _ => []
  | s + 1, n => n % 2 :: bitsLE s (n / 2)

/-- The accumulation loop `n <<= 1; n += b` of `bit_list_to_int`,
reading the list most-significant-bit first. -/
def foldBits (t : List Nat) : Nat :=
  t.foldl (fun n b => 2 * n + b) 0

/-- Big-endian byte accumulation: `int.from_bytes(b, "big")`. -/
def foldl256 (b : List Nat) : Nat :=
  b.foldl (fun n x => 256 * n + x) 0

/-- `int.from_bytes(value, byteorder)` for a validated order string. -/
def pyFromBytes (b : List Nat) (bo : String) : Nat :=
  if bo = "big" then foldl256 b else foldl256 b.reverse

/-- Minimal-logic big-endian rendering of `n` on exactly `size` bytes
(most significant byte first). -/
def natToBytesBE : Nat → Nat → List Nat
  | 0, _ => []
  | s + 1, n => natToBytesBE s (n / 256) ++ [n % 256]

/-- `n.to_bytes(size, byteorder)`: raises `OverflowError` when `n` does not
fit on `size` bytes. -/
def pyToBytes (n size : Nat) (bo : String) : Except PyError (List Nat) :=
  if n < 256 ^ size then
    .ok (if bo = "big" then natToBytesBE size n else (natToBytesBE size n).reverse)
  else
    .error .overflowError

/-- `resize` from `byte.py`.  Note the source performs no validation of the
byte-order string: any order other than `"big"` selects the little-endian
slice/pad branch. -/
def resize (g : String) (array : List Nat) (size : Nat)
    (byteorder : Option String) : List Nat :=
  let bo := resolveOrder g byteorder
  if size < array.length then
    -- array[len(array)-size:] if byteorder == 'big' else array[:size]
    if bo = "big" then array.drop (array.length - size) else array.take size
  else if array.length < size then
    -- padding = b''.join([b'\x00'] * (size - len(array)))
    let padding := List.replicate (size - array.length) 0
    if bo = "big" then padding ++ array else array ++ padding
  else
    array

/-- `from_int` from `byte.py` (the `isinstance` checks hold by typing). -/
def from_int (g : String) (value : Nat) (size : Nat)
    (byteorder : Option String) : Except PyError (List Nat) := do
  let bo := resolveOrder g byteorder
  if bo ≠ "big" ∧ bo ≠ "little" then
    throw .programmingError
  -- value = value.to_bytes((value.bit_length() + 7) // 8, byteorder)
  let minlen := (bit_length value + 7) / 8
  let vb := if bo = "big" then natToBytesBE minlen value
            else (natToBytesBE minlen value).reverse
  -- if len(value) == 0: size = 1 if not size else size
  let size := if vb.length = 0 then (if size = 0 then 1 else size) else size
  -- return resize(value, len(value) if not size else size, byteorder)
  .ok (resize g vb (if size = 0 then vb.length else size) (some bo))

/-- `to_int` from `byte.py`. -/
def to_int (g : String) (array : List Nat)
    (byteorder : Option String) : Except PyError Nat := do
  let bo := resolveOrder g byteorder
  if bo ≠ "big" ∧ bo ≠ "little" then
    throw .programmingError
  .ok (pyFromBytes array bo)

/-- `int_to_bit_list` from `byte.py` (the source default for `size` is 8;
callers of the default pass 8 explicitly here). -/
def int_to_bit_list (g : String) (n : Nat) (size : Nat)
    (byteorder : Option String) : Except PyError (List Nat) := do
  let bo := resolveOrder g byteorder
  if bo ≠ "big" ∧ bo ≠ "little" then
    throw .programmingError
  let t := bitsLE size n
  .ok (if bo = "big" then t.reverse else t)

/-- `bit_list_to_int` from `byte.py`. -/
def bit_list_to_int (g : String) (t : List Nat)
    (byteorder : Option String) : Except PyError Nat := do
  let bo := resolveOrder g byteorder
  if bo ≠ "big" ∧ bo ≠ "little" then
    throw .programmingError
  -- if byteorder != 'big': t = reversed(t)
  .ok (if bo = "big" then foldBits t else foldBits t.reverse)

/-- `to_bit_list` from `byte.py`.  The source computes a local
`size = size if size else 8*len(value)` but then calls
`int_to_bit_list(n, size=8*len(value))` — with no byteorder argument, so the
bit ordering of the result follows the global default `g`, not the explicit
`byteorder` parameter. -/
def to_bit_list (g : String) (value : List Nat) (size : Option Nat)
    (byteorder : Option String) : Except PyError (List Nat) := do
  let bo := resolveOrder g byteorder
  if bo ≠ "big" ∧ bo ≠ "little" then
    throw .programmingError
  let n := pyFromBytes value bo
  let _unusedSize := match size with | some s => if s = 0 then 8 * value.length else s
                                     | none => 8 * value.length
  int_to_bit_list g n (8 * value.length) none

/-- `from_bit_list` from `byte.py`. -/
def from_bit_list (g : String) (bits : List Nat)
    (byteorder : Option String) : Except PyError (List Nat) := do
  let bo := resolveOrder g byteorder
  if bo ≠ "big" ∧ bo ≠ "little" then
    throw .programmingError
  -- assert len(bits) % 8 == 0
  if bits.length % 8 ≠ 0 then
    throw .assertionError
  let n ← bit_list_to_int g bits (some bo)
  pyToBytes n (bits.length / 8) bo

/-- `"{0}/{1}/{2}"` / `"{0}.{1}.{2}"` formatting used by `to_knx`. -/
def knx_format (group : Bool) (x y z : Nat) : String :=
  if group then s!"{x}/{y}/{z}" else s!"{x}.{y}.{z}"

/-- `to_knx` from `byte.py`.  `int("".join(str(b) for b in bits), 2)` on a
list of 0/1 digits equals `foldBits`.  The call `to_bit_list(value[:1])`
passes no byteorder, so the global default `g` governs the bit order. -/
def to_knx (g : String) (value : List Nat) (group : Bool) :
    Except PyError (Option String) := do
  if value.length = 0 then
    return none
  let first_chunk_size := if group then 5 else 4
  let bitlist ← to_bit_list g (value.take 1) none none
  let x := foldBits (bitlist.take first_chunk_size)
  let y := foldBits (bitlist.drop first_chunk_size)
  let z ← to_int g (value.drop 1) none
  return some (knx_format group x y z)

/-- All ways to read an initial run of 1..maxLen decimal digits off `cs`,
longest first (the backtracking choices of the regex atom `\d{1,maxLen}`). -/
def digitReads (cs : List Char) (maxLen : Nat) : List (Nat × List Char) :=
  (List.range maxLen).reverse.filterMap fun k =>
    let len := k + 1
    let pre := cs.take len
    if pre.length = len ∧ pre.all (·.isDigit) then
      some (foldDigits pre, cs.drop len)
    else
      none
where
  /-- Decimal value of a digit list. -/
  foldDigits (ds : List Char) : Nat :=
    ds.foldl (fun n c => 10 * n + (c.toNat - '0'.toNat)) 0

/-- Prefix match of `\d{1,2} sep \d{1,2} sep \d{1,3}` against `cs`
(re.match anchors at the start only; trailing characters are ignored),
with the greedy-but-backtracking semantics of the regex engine. -/
def matchTriple (cs : List Char) (sep : Char) : Option (Nat × Nat × Nat) :=
  (digitReads cs 2).findSome? fun (x, r1) =>
    match r1 with
    | c :: r2 =>
      if c = sep then
        (digitReads r2 2).findSome? fun (y, r3) =>
          match r3 with
          | d :: r4 =>
            if d = sep then
              (digitReads r4 3).findSome? fun (z, _) => some (x, y, z)
            else none
          | [] => none
      else none
    | [] => none

/-- `from_knx` from `byte.py`: tries the individual-address regex
(separator '.', first chunk 4 bits), then the group-address regex
(separator '/', first chunk 5 bits). -/
def from_knx (g : String) (address : String) :
    Except PyError (Option (List Nat)) := do
  let cs := address.data
  let parsed : Option ((Nat × Nat × Nat) × Nat) :=
    match matchTriple cs '.' with
    | some t => some (t, 4)               -- individual address
    | none => (matchTriple cs '/').map (fun t => (t, 5))  -- group address
  match parsed with
  | none => return none
  | some ((x, y, z), first_chunk_size) =>
    -- x = int_to_bit_list(x)[8-first_chunk_size:]
    let xbits ← int_to_bit_list g x 8 none
    let xbits := xbits.drop (8 - first_chunk_size)
    -- y = int_to_bit_list(y)[first_chunk_size:]
    let ybits ← int_to_bit_list g y 8 none
    let ybits := ybits.drop first_chunk_size
    let v ← bit_list_to_int g (xbits ++ ybits) none
    let b1 ← from_int g v 0 none
    let b2 ← from_int g z 0 none
    return some (b1 ++ b2)

end bof

namespace opcua

/-- A Python value held in the `defaults` map: either a symbolic string
(e.g. `"HEL"`) or a byte value. -/
inductive PyVal where
  | str (s : String)
  | bytes (b : List Nat)
deriving Repr, DecidableEq

/-- One item template of a block template, as found in the protocol JSON:
`{"name": ..., "type": ..., "size": ...}`.  `type?` is `none` when the
"type" key is absent from the dict. -/
structure ItemTemplate where
  name : String
  type? : Option String
  size : Nat
deriving Repr, DecidableEq

/-- A built tree node: an `OpcuaField` leaf or an `OpcuaBlock` with its
ordered children. -/
inductive Item where
  | field (name : String) (size : Nat) (value : List Nat)
  | block (name : String) (children : List Item)
deriving Repr

/- Modelled from the spec: `BOFField.__len__`/`BOFBlock.__len__` live in
`bof/frame.py`, which is not under `src/`.  Per spec §3/§4.3, a field's
length is its current value's length and a block's length is the sum of its
children's lengths. -/
mutual
/-- Modelled from the spec: length of a built field or block. -/
def itemLen : Item → Nat
  | .field _ _ v => v.length
  | .block _ cs => itemsLen cs

def itemsLen : List Item → Nat
  | [] => 0
  | i :: rest => itemLen i + itemsLen rest
end

/- Modelled from the spec: serialization (`BOFBlock.__bytes__`, in the
missing `bof/frame.py`) "walks the resulting tree in template order,
concatenating each leaf's current byte value" (spec §2/§4.5). -/
mutual
/-- Modelled from the spec: the byte sequence of a built field or block. -/
def serializeItem : Item → List Nat
  | .field _ _ v => v
  | .block _ cs => serializeItems cs

def serializeItems : List Item → List Nat
  | [] => []
  | i :: rest => serializeItem i ++ serializeItems rest
end

/-- The loaded OPC UA specification document (`opcua.json`), abstracted as
data: block templates and code tables (spec §3, "Specification Document"). -/
structure OpcuaSpecData where
  blocks : List (String × List ItemTemplate)
  codes : List (String × List (String × String))
deriving Repr

/-- Exact-name association lookup.  Modelled from the spec:
`BOFSpec._get_dict_value` / `_get_dict_key` live in the missing
`bof/spec.py`; per spec §4.2 template/table lookup is an exact-name lookup
that yields "not found" for an absent name. -/
def lookupAssoc {α : Type} (l : List (String × α)) (key : String) : Option α :=
  (l.find? (fun kv => kv.1 = key)).map (·.2)

/-- `OpcuaSpec.get_block_template`: `self._get_dict_value(self.blocks,
block_name) if block_name else None` — a falsy (empty) name short-circuits
to `None`. -/
def get_block_template (spec : OpcuaSpecData) (block_name : String) :
    Option (List ItemTemplate) :=
  if block_name ≠ "" then lookupAssoc spec.blocks block_name else none

/-- `OpcuaSpec.get_item_template`: linear scan of a block's item templates
by name. -/
def get_item_template (spec : OpcuaSpecData) (block_name item_name : String) :
    Option ItemTemplate :=
  match lookupAssoc spec.blocks block_name with
  | some items => items.find? (fun it => it.name = item_name)
  | none => none

/-- `str.encode(key)`: UTF-8 bytes of a string. -/
def strEncode (s : String) : List Nat :=
  s.toUTF8.toList.map (·.toNat)

/-- `OpcuaSpec.get_code_name`: looks `identifier` up in the code table
named `code_name`, comparing byte identifiers against the UTF-8 encoding of
each key and string identifiers against the key itself. -/
def get_code_name (spec : OpcuaSpecData) (code_name : String)
    (identifier : PyVal) : Option String :=
  match lookupAssoc spec.codes code_name with
  | none => none
  | some table =>
    match identifier with
    | .bytes b => (table.find? (fun kv => b = strEncode kv.1)).map (·.2)
    | .str s => (table.find? (fun kv => s = kv.1)).map (·.2)

/-- The keyword arguments of `OpcuaBlock.__init__` that the embedded code
reads: `name`, `type`, `item_template_block`, `defaults`, `value`
(`value` is falsy-empty when absent). -/
structure BlockArgs where
  name? : Option String
  type? : Option String
  item_template_block? : Option ItemTemplate
  defaults : List (String × PyVal)
  value : List Nat

/-- `dependency in defaults` / `defaults[dependency]`. -/
def lookupDefault (defaults : List (String × PyVal)) (key : String) :
    Option PyVal :=
  (defaults.find? (fun kv => kv.1 = key)).map (·.2)

/-- `block_type.startswith("depends:")`, on the character list. -/
def strStartsWith (s pre : String) : Bool :=
  pre.data.isPrefixOf s.data

/-- `str.split(":")` on the character list. -/
def splitOnChar (c : Char) : List Char → List (List Char)
  | [] => [[]]
  | x :: rest =>
    if x = c then [] :: splitOnChar c rest
    else
      match splitOnChar c rest with
      | [] => [[x]]
      | seg :: segs => (x :: seg) :: segs

/-- `block_type.split(":")[1]` (defined whenever the string contains a
colon, which `startswith("depends:")` guarantees at the use site). -/
def dependencyOf (block_type : String) : String :=
  match (splitOnChar ':' block_type.data).get? 1 with
  | some seg => String.mk seg
  | none => ""

/-- The child-building loop of `OpcuaBlock.__init__` (lines 284–293):
builds one child per item template in order, appending it, then — only when
the remaining raw buffer is truthy — breaking out of the loop as soon as the
child's length reaches the remaining buffer's length, else advancing the
buffer by the child's length.  `buildChild` is the factory applied to the
current remaining buffer. -/
def buildLoop (buildChild : ItemTemplate → List Nat → Except PyError Item) :
    List ItemTemplate → List Nat → Except PyError (List Item)
  | [], _ => .ok []
  | t :: rest, value => do
    let new_item ← buildChild t value
    if value = [] then
      let others ← buildLoop buildChild rest value
      pure (new_item :: others)
    else if value.length ≤ itemLen new_item then
      pure [new_item]   -- break: new_item was appended, the rest are not built
    else do
      let others ← buildLoop buildChild rest (value.drop (itemLen new_item))
      pure (new_item :: others)

/-- `OpcuaBlock.factory` (lines 181–208), with the recursive
`OpcuaBlock(...)` call abstracted as `rec`.  For a "field" item the
assigned value is: the defaults entry of the same name if present — but the
source reads it as `kwargs["defaults"][template["name"]]` where `template`
is an undefined variable, so that branch raises `NameError`; else the next
`size` bytes of a truthy raw buffer; else empty.  The built `OpcuaField`
truncates the value to the declared size (`BOFField` is in the missing
`bof/frame.py`; truncation per spec §4.3). -/
def factoryAux (rec : BlockArgs → Except PyError Item)
    (tmpl : ItemTemplate) (defaults : List (String × PyVal))
    (value : List Nat) : Except PyError Item :=
  if tmpl.type? = some "field" then
    if (lookupDefault defaults tmpl.name).isSome then
      .error .nameError   -- `value = kwargs["defaults"][template["name"]]`
    else
      let v := if value = [] then [] else value.take tmpl.size
      .ok (.field tmpl.name tmpl.size (v.take tmpl.size))
  else
    rec { name? := none, type? := none, item_template_block? := some tmpl,
          defaults := defaults, value := value }

/-- `OpcuaBlock.__init__` (lines 210–294), with the recursive factory call
abstracted through `rec` and the parent-chain dependency walk
(`BOFBlock._get_depends_block`, in the missing `bof/frame.py`) abstracted
as the oracle `dep` (spec §4.4 step 2b).  Resolution: explicit `type`
kwarg, else the item template's "type"; a missing type yields an empty
block; a `depends:<field>` type resolves through the defaults map via
`get_code_name` (the source's `if dependency == None` guard compares the
wrong variable and never fires), else through the parent walk; the block's
name becomes the resolved type; an unknown/falsy/empty block template
raises; children are then built by the loop. -/
def buildBlockAux (spec : OpcuaSpecData) (dep : String → Option String)
    (rec : BlockArgs → Except PyError Item) (args : BlockArgs) :
    Except PyError Item := do
  let defaults := args.defaults
  let value := args.value
  let block_type0 : Option String :=
    match args.type? with
    | some t => some t
    | none =>
      match args.item_template_block? with
      | some itb => itb.type?
      | none => none
  match block_type0 with
  | none =>
    -- "No type or item_template_block specified, creating empty block"
    pure (.block ((args.name?).getD "") [])
  | some bt => do
    let block_type : Option String ←
      if strStartsWith bt "depends:" then do
        let dependency := dependencyOf bt
        match lookupDefault defaults dependency with
        | some idv =>
          -- the dead `if dependency == None` check raises nothing here
          pure (get_code_name spec dependency idv)
        | none =>
          match dep dependency with
          | some t => pure (some t)
          | none => throw .programmingError
      else
        pure (some bt)
    -- self._name = block_type; then the template lookup must succeed
    match block_type with
    | none => throw .programmingError      -- get_block_template(None) is falsy
    | some name =>
      match get_block_template spec name with
      | none => throw .programmingError
      | some [] => throw .programmingError -- an empty template list is falsy
      | some tmpls => do
        let items ← buildLoop
          (fun t v => factoryAux rec t defaults v) tmpls value
        pure (.block name items)

/-- Fuel-indexed tie of the `factory`/`__init__` mutual recursion.  The
Python source has no fuel: nesting deeper than the interpreter's recursion
limit raises `RecursionError`, which is what exhausting the budget models.
Any bound deep enough for the data at hand yields the source's behaviour. -/
def buildBlock (spec : OpcuaSpecData) (dep : String → Option String) :
    Nat → BlockArgs → Except PyError Item
  | 0, args => buildBlockAux spec dep (fun _ => .error .recursionError) args
  | n + 1, args => buildBlockAux spec dep (buildBlock spec dep n) args

/-- `OpcuaBlock.factory` at a given recursion budget for nested blocks. -/
def factory (spec : OpcuaSpecData) (dep : String → Option String)
    (fuel : Nat) (tmpl : ItemTemplate) (defaults : List (String × PyVal))
    (value : List Nat) : Except PyError Item :=
  factoryAux (buildBlock spec dep fuel) tmpl defaults value

/-- The child-building loop as run inside `OpcuaBlock.__init__` with
recursion budget `fuel` for nested blocks. -/
def buildItems (spec : OpcuaSpecData) (dep : String → Option String)
    (fuel : Nat) (tmpls : List ItemTemplate)
    (defaults : List (String × PyVal)) (value : List Nat) :
    Except PyError (List Item) :=
  buildLoop (fun t v => factoryAux (buildBlock spec dep fuel) t defaults v)
    tmpls value

/-- Declared size of one item template: a field contributes its declared
`size`; a nested block contributes the total declared size of its resolved
template; a `depends:` placeholder or absent type has no declared size. -/
def itemSizeAux (recSize : String → Option Nat) (t : ItemTemplate) :
    Option Nat :=
  match t.type? with
  | some ty =>
    if ty = "field" then some t.size
    else if strStartsWith ty "depends:" then none
    else recSize ty
  | none => none

/-- Total declared size of a template list (spec §8: "a block template
whose total declared size is L"). -/
def templateSizeAux (recSize : String → Option Nat) :
    List ItemTemplate → Option Nat
  | [] => some 0
  | t :: rest => do
    let s ← itemSizeAux recSize t
    let r ← templateSizeAux recSize rest
    pure (s + r)

/-- Declared size of a named block type, resolved through the
specification to the same depth as `buildBlock`'s recursion budget. -/
def blockSize (spec : OpcuaSpecData) : Nat → String → Option Nat
  | 0, _ => none
  | n + 1, ty =>
    match get_block_template spec ty with
    | none => none
    | some [] => none
    | some tmpls => templateSizeAux (blockSize spec n) tmpls

/-- A small concrete specification document used to instantiate the
general theorems: one header-like template of two 1-byte fields, one
OPC UA HEL-style body, and a `message_type` code table. -/
def spec0 : OpcuaSpecData :=
  { blocks := [("HEL_BODY", [⟨"pv", some "field", 1⟩]),
               ("HEADER", [⟨"a", some "field", 1⟩, ⟨"b", some "field", 1⟩])],
    codes := [("message_type", [("HEL", "HEL_BODY")])] }

/-- A concrete specification document with a nested block template. -/
def spec1 : OpcuaSpecData :=
  { blocks := [("TOP", [⟨"h", some "field", 1⟩, ⟨"sub", some "INNER", 0⟩,
                        ⟨"t", some "field", 1⟩]),
               ("INNER", [⟨"x", some "field", 2⟩])],
    codes := [] }

/-- A parent-walk oracle for blocks with no parent: every upward
dependency lookup fails. -/
def dep0 : String → Option String := fun _ => none

end opcua

/-! ## Helper lemmas about the bit- and byte-level primitives -/

namespace bof

theorem bitsLE_length (s n : Nat) : (bitsLE s n).length = s := by
  induction s generalizing n with
  | zero => rfl
  | succ s ih => simp [bitsLE, ih]

theorem foldBits_foldl (l : List Nat) (init : Nat) :
    l.foldl (fun n b => 2 * n + b) init = init * 2 ^ l.length + foldBits l := by
  induction l generalizing init with
  | nil => simp [foldBits]
  | cons b rest ih =>
    show List.foldl _ (2 * init + b) rest = _
    rw [ih (2 * init + b)]
    have hb : foldBits (b :: rest) = b * 2 ^ rest.length + foldBits rest := by
      show List.foldl _ (2 * 0 + b) rest = _
      rw [ih (2 * 0 + b)]
      ring_nf
    rw [hb]
    simp [List.length_cons, pow_succ]
    ring

theorem foldBits_append (a b : List Nat) :
    foldBits (a ++ b) = foldBits a * 2 ^ b.length + foldBits b := by
  unfold foldBits
  rw [List.foldl_append]
  exact foldBits_foldl b (List.foldl _ 0 a)

theorem foldBits_single (b : Nat) : foldBits [b] = b := by
  simp [foldBits]

theorem foldBits_reverse_bitsLE (s n : Nat) :
    foldBits ((bitsLE s n).reverse) = n % 2 ^ s := by
  induction s generalizing n with
  | zero => simp [bitsLE, foldBits, Nat.mod_one]
  | succ s ih =>
    show foldBits ((n % 2 :: bitsLE s (n / 2)).reverse) = _
    rw [List.reverse_cons, foldBits_append, ih, foldBits_single]
    have h1 : n % (2 * 2 ^ s) = n % 2 + 2 * (n / 2 % 2 ^ s) := Nat.mod_mul
    have h2 : (2 : ℕ) ^ (s + 1) = 2 * 2 ^ s := by rw [pow_succ]; ring
    rw [h2]
    have h3 : ([n % 2] : List ℕ).length = 1 := rfl
    rw [h3, pow_one]
    omega

theorem bitsLE_take (k s n : Nat) (h : k ≤ s) :
    (bitsLE s n).take k = bitsLE k n := by
  induction k generalizing s n with
  | zero => rfl
  | succ k ih =>
    match s, h with
    | s + 1, h =>
      show (n % 2 :: bitsLE s (n / 2)).take (k + 1) = _
      rw [List.take_succ_cons, ih s (n / 2) (Nat.le_of_succ_le_succ h)]
      rfl

theorem bitsLE_drop (k s n : Nat) :
    (bitsLE s n).drop k = bitsLE (s - k) (n / 2 ^ k) := by
  induction k generalizing s n with
  | zero => simp
  | succ k ih =>
    match s with
    | 0 => simp [bitsLE]
    | s + 1 =>
      show (n % 2 :: bitsLE s (n / 2)).drop (k + 1) = _
      rw [List.drop_succ_cons, ih s (n / 2)]
      congr 1
      · omega
      · rw [Nat.div_div_eq_div_mul, pow_succ]
        ring_nf

theorem natToBytesBE_length (s n : Nat) : (natToBytesBE s n).length = s := by
  induction s generalizing n with
  | zero => rfl
  | succ s ih => simp [natToBytesBE, ih]

theorem foldl256_foldl (l : List Nat) (init : Nat) :
    l.foldl (fun n x => 256 * n + x) init
      = init * 256 ^ l.length + foldl256 l := by
  induction l generalizing init with
  | nil => simp [foldl256]
  | cons b rest ih =>
    show List.foldl _ (256 * init + b) rest = _
    rw [ih (256 * init + b)]
    have hb : foldl256 (b :: rest) = b * 256 ^ rest.length + foldl256 rest := by
      show List.foldl _ (256 * 0 + b) rest = _
      rw [ih (256 * 0 + b)]
      ring_nf
    rw [hb]
    simp [List.length_cons, pow_succ]
    ring

theorem foldl256_append (a b : List Nat) :
    foldl256 (a ++ b) = foldl256 a * 256 ^ b.length + foldl256 b := by
  unfold foldl256
  rw [List.foldl_append]
  exact foldl256_foldl b (List.foldl _ 0 a)

theorem foldl256_single (b : Nat) : foldl256 [b] = b := by
  simp [foldl256]

theorem foldl256_natToBytesBE (s n : Nat) :
    foldl256 (natToBytesBE s n) = n % 256 ^ s := by
  induction s generalizing n with
  | zero => simp [natToBytesBE, foldl256, Nat.mod_one]
  | succ s ih =>
    show foldl256 (natToBytesBE s (n / 256) ++ [n % 256]) = _
    rw [foldl256_append, ih, foldl256_single]
    have h1 : n % (256 * 256 ^ s) = n % 256 + 256 * (n / 256 % 256 ^ s) :=
      Nat.mod_mul
    have h2 : (256 : ℕ) ^ (s + 1) = 256 * 256 ^ s := by rw [pow_succ]; ring
    rw [h2]
    have h3 : ([n % 256] : List ℕ).length = 1 := rfl
    rw [h3, pow_one]
    omega

theorem foldl256_lt (b : List Nat) (h : ∀ x ∈ b, x < 256) :
    foldl256 b < 256 ^ b.length := by
  induction b using List.reverseRecOn with
  | nil => simp [foldl256]
  | append_singleton rest x ih =>
    rw [foldl256_append, foldl256_single]
    have hx : x < 256 := h x (by simp)
    have hr : foldl256 rest < 256 ^ rest.length :=
      ih (fun y hy => h y (by simp [hy]))
    simp only [List.length_append, List.length_singleton, pow_succ, pow_one]
    nlinarith

theorem natToBytesBE_foldl256 (b : List Nat) (h : ∀ x ∈ b, x < 256) :
    natToBytesBE b.length (foldl256 b) = b := by
  induction b using List.reverseRecOn with
  | nil => rfl
  | append_singleton rest x ih =>
    have hx : x < 256 := h x (by simp)
    rw [foldl256_append, foldl256_single]
    simp only [List.length_append, List.length_singleton, pow_one]
    show natToBytesBE (rest.length + 1) (foldl256 rest * 256 + x) = _
    rw [natToBytesBE]
    have hdiv : (foldl256 rest * 256 + x) / 256 = foldl256 rest := by
      rw [mul_comm (foldl256 rest) 256, Nat.mul_add_div (by omega)]
      omega
    have hmod : (foldl256 rest * 256 + x) % 256 = x := by
      rw [mul_comm (foldl256 rest) 256, Nat.mul_add_mod]
      omega
    rw [hdiv, hmod, ih (fun y hy => h y (by simp [hy]))]

theorem foldl256_replicate_zero (k : Nat) : foldl256 (List.replicate k 0) = 0 := by
  induction k with
  | zero => rfl
  | succ k ih =>
    show foldl256 (0 :: List.replicate k 0) = 0
    show List.foldl _ (256 * 0 + 0) _ = 0
    simpa [foldl256] using ih

theorem foldl256_zero_pad (k : Nat) (b : List Nat) :
    foldl256 (List.replicate k 0 ++ b) = foldl256 b := by
  rw [foldl256_append, foldl256_replicate_zero]
  simp

theorem bitLenAux_lt (fuel n : Nat) (h : n ≤ fuel) :
    n < 2 ^ bitLenAux fuel n := by
  induction fuel generalizing n with
  | zero =>
    interval_cases n
    simp [bitLenAux]
  | succ fuel ih =>
    by_cases hn : n = 0
    · simp [bitLenAux, hn]
    · have h2 : n / 2 ≤ fuel := by omega
      have := ih (n / 2) h2
      simp only [bitLenAux, hn, if_false]
      rw [pow_succ]
      omega

theorem bit_length_lt (n : Nat) : n < 2 ^ bit_length n :=
  bitLenAux_lt n n le_rfl

theorem lt_pow256_of_bit_length_le (n m : Nat) (h : bit_length n ≤ 8 * m) :
    n < 256 ^ m := by
  have h1 : n < 2 ^ bit_length n := bit_length_lt n
  have h2 : (2 : Nat) ^ bit_length n ≤ 2 ^ (8 * m) :=
    Nat.pow_le_pow_right (by omega) h
  have h3 : (2 : Nat) ^ (8 * m) = 256 ^ m := by
    rw [pow_mul]
    norm_num
  omega

theorem bitLenAux_le (fuel n k : Nat) (h : n ≤ fuel) (hk : n < 2 ^ k) :
    bitLenAux fuel n ≤ k := by
  induction fuel generalizing n k with
  | zero => simp [bitLenAux]
  | succ fuel ih =>
    by_cases hn : n = 0
    · simp [bitLenAux, hn]
    · simp only [bitLenAux, hn, if_false]
      match k with
      | 0 => omega
      | k + 1 =>
        have hk2 : n / 2 < 2 ^ k := by
          rw [pow_succ] at hk
          omega
        have := ih (n / 2) k (by omega) hk2
        omega

theorem bit_length_le (n k : Nat) (h : n < 2 ^ k) : bit_length n ≤ k :=
  bitLenAux_le n n k le_rfl h

theorem bit_length_pos (n : Nat) (h : n ≠ 0) : 1 ≤ bit_length n := by
  unfold bit_length
  match n with
  | m + 1 => simp [bitLenAux]

theorem bit_length_zero : bit_length 0 = 0 := rfl

theorem n_lt_pow256_minlen (n : Nat) :
    n < 256 ^ ((bit_length n + 7) / 8) := by
  apply lt_pow256_of_bit_length_le
  omega

/-- Evaluation of `from_int` for order `"big"` and a size at least the
minimal byte count: the minimal big-endian bytes, zero-left-padded. -/
theorem from_int_big_eq (g : String) (n s : Nat)
    (hs : (bit_length n + 7) / 8 ≤ s) :
    from_int g n s (some "big") =
      .ok (List.replicate ((if s = 0 then 1 else s) - (bit_length n + 7) / 8) 0
           ++ natToBytesBE ((bit_length n + 7) / 8) n) := by
  simp only [from_int, resolveOrder, bind, Except.bind]
  simp only [show ("big" : String) = "" ↔ False from by simp, if_false, if_true,
    pure, Except.pure]
  simp only [show ("big" : String) ≠ "big" ∧ ("big" : String) ≠ "little" ↔ False
    from by simp, if_false]
  rw [natToBytesBE_length]
  set minlen := (bit_length n + 7) / 8 with hmin
  by_cases h0 : minlen = 0
  · rw [h0]
    have hs2 : ¬ (if s = 0 then 1 else s) = 0 := by split <;> omega
    have h2 : 0 < (if s = 0 then 1 else s) := by omega
    simp only [natToBytesBE]
    norm_num [hs2]
    simp [resize, resolveOrder, h2]
  · have hs0 : ¬ s = 0 := by omega
    rw [if_neg h0, if_neg hs0, if_neg hs0]
    simp only [resize, resolveOrder, natToBytesBE_length]
    norm_num
    rcases Nat.lt_or_ge minlen s with hlt | hge
    · rw [if_neg (by omega), if_pos hlt]
      simp
    · have heq : s = minlen := by omega
      rw [if_neg (by omega), if_neg (by omega)]
      simp [heq]

/-- Evaluation of `from_int` for order `"little"`:
the reversed minimal bytes, zero-right-padded. -/
theorem from_int_little_eq (g : String) (n s : Nat)
    (hs : (bit_length n + 7) / 8 ≤ s) :
    from_int g n s (some "little") =
      .ok ((natToBytesBE ((bit_length n + 7) / 8) n).reverse
           ++ List.replicate ((if s = 0 then 1 else s) - (bit_length n + 7) / 8) 0) := by
  simp only [from_int, resolveOrder, bind, Except.bind]
  simp only [show ("little" : String) = "" ↔ False from by simp, if_false, if_true,
    pure, Except.pure]
  simp only [show ("little" : String) ≠ "big" ∧ ("little" : String) ≠ "little" ↔ False
    from by simp, if_false]
  simp only [show (("little" : String) = "big") = False from by simp, if_false]
  rw [List.length_reverse, natToBytesBE_length]
  set minlen := (bit_length n + 7) / 8 with hmin
  by_cases h0 : minlen = 0
  · rw [h0]
    have hs2 : ¬ (if s = 0 then 1 else s) = 0 := by split <;> omega
    have h2 : 0 < (if s = 0 then 1 else s) := by omega
    simp only [natToBytesBE, List.reverse_nil]
    norm_num [hs2]
    simp [resize, resolveOrder, h2]
  · have hs0 : ¬ s = 0 := by omega
    rw [if_neg h0, if_neg hs0, if_neg hs0]
    simp only [resize, resolveOrder, List.length_reverse, natToBytesBE_length]
    norm_num
    rcases Nat.lt_or_ge minlen s with hlt | hge
    · rw [if_neg (by omega), if_pos hlt]
      simp
    · have heq : s = minlen := by omega
      rw [if_neg (by omega), if_neg (by omega)]
      simp [heq]

theorem to_int_eval (g : String) (a : List Nat) (bo : String)
    (h : bo = "big" ∨ bo = "little") :
    to_int g a (some bo) = .ok (pyFromBytes a bo) := by
  rcases h with rfl | rfl <;> simp [to_int, resolveOrder]

/-! ## Claims about the byte codec -/

/-- C6: `resize(array, size, order)` returns `array` unchanged when `size`
equals `len(array)`; for `size < len(array)` it keeps the trailing `size`
bytes under big-endian order and the leading `size` bytes under
little-endian order; for `size > len(array)` it prepends zero bytes under
big-endian order and appends them under little-endian order; in particular
resizing the two bytes `D2 D2` to size 1 big-endian yields the single
byte `D2`. -/
theorem resize_behaviour (g : String) (a : List Nat) (s : Nat) :
    (∀ o : Option String, resize g a a.length o = a)
    ∧ (s < a.length →
        resize g a s (some "big") = a.drop (a.length - s)
        ∧ resize g a s (some "little") = a.take s)
    ∧ (a.length < s →
        resize g a s (some "big") = List.replicate (s - a.length) 0 ++ a
        ∧ resize g a s (some "little") = a ++ List.replicate (s - a.length) 0)
    ∧ resize g [0xD2, 0xD2] 1 (some "big") = [0xD2] := by
  refine ⟨fun o => ?_, fun h => ⟨?_, ?_⟩, fun h => ⟨?_, ?_⟩, ?_⟩
  · simp [resize]
  · simp [resize, resolveOrder, h]
  · simp [resize, resolveOrder, h]
  · simp [resize, resolveOrder, h, Nat.not_lt.mpr (Nat.le_of_lt h)]
  · simp [resize, resolveOrder, h, Nat.not_lt.mpr (Nat.le_of_lt h)]
  · rfl

theorem resize_behaviour_witness :
    resize "big" [1, 2, 3] 2 (some "big") = [2, 3]
    ∧ resize "big" [1, 2] 5 (some "little") = [1, 2, 0, 0, 0]
    ∧ resize "big" [9] 1 (some "big") = [9] :=
  ⟨((resize_behaviour "big" [1, 2, 3] 2).2.1 (by decide)).1,
   ((resize_behaviour "big" [1, 2] 5).2.2.1 (by decide)).2,
   (resize_behaviour "big" [9] 0).1 (some "big")⟩

/-- C7: for every non-negative integer `n`, order `o ∈ {big, little}` and
size `s ≥ size_of(n)`, `bytes_to_int(int_to_bytes(n, size=s, order=o),
order=o) = n`. -/
theorem int_roundtrip (g : String) (n s : Nat) (o : String)
    (ho : o = "big" ∨ o = "little") (hs : get_size (.inr n) ≤ s) :
    (from_int g n s (some o)).bind (fun b => to_int g b (some o)) = .ok n := by
  have hs' : (bit_length n + 7) / 8 ≤ s := hs
  have hval : n < 256 ^ ((bit_length n + 7) / 8) := n_lt_pow256_minlen n
  rcases ho with rfl | rfl
  · rw [from_int_big_eq g n s hs']
    show to_int g _ (some "big") = _
    rw [to_int_eval g _ "big" (Or.inl rfl)]
    unfold pyFromBytes
    rw [if_pos rfl, foldl256_zero_pad, foldl256_natToBytesBE,
      Nat.mod_eq_of_lt hval]
  · rw [from_int_little_eq g n s hs']
    show to_int g _ (some "little") = _
    rw [to_int_eval g _ "little" (Or.inr rfl)]
    unfold pyFromBytes
    rw [if_neg (by simp), List.reverse_append, List.reverse_replicate,
      List.reverse_reverse, foldl256_zero_pad, foldl256_natToBytesBE,
      Nat.mod_eq_of_lt hval]

theorem int_roundtrip_witness :
    (from_int "big" 65980 8 (some "big")).bind
      (fun b => to_int "big" b (some "big")) = .ok 65980 :=
  int_roundtrip "big" 65980 8 "big" (Or.inl rfl) (by decide)

/-- C9 counterexample: `resize` performs no byte-order validation — given
the invalid order `"banana"` it silently behaves like little-endian
truncation instead of raising a `BOFProgrammingError`. -/
theorem resize_invalid_order_cex :
    resize "big" [1, 2] 1 (some "banana") = [1]
    ∧ resize "big" [1, 2] 1 (some "little") = [1]
    ∧ resize "big" [1, 2] 1 (some "big") = [2] :=
  ⟨rfl, rfl, rfl⟩

/-- C9 amended: of the byte-codec operations taking an optional byte order,
`from_int`, `to_int`, `int_to_bit_list`, `bit_list_to_int`, `to_bit_list`
and `from_bit_list` raise `BOFProgrammingError` on a non-empty order other
than "big"/"little", but `resize` performs no validation and treats any
such order exactly like "little" (an empty order string falls back to the
process-wide default in every operation). -/
theorem invalid_order_behaviour (g o : String)
    (ho : ¬(o = "big" ∨ o = "little")) (hne : o ≠ "") :
    (∀ v s, from_int g v s (some o) = .error .programmingError)
    ∧ (∀ a, to_int g a (some o) = .error .programmingError)
    ∧ (∀ n s, int_to_bit_list g n s (some o) = .error .programmingError)
    ∧ (∀ t, bit_list_to_int g t (some o) = .error .programmingError)
    ∧ (∀ v os, to_bit_list g v os (some o) = .error .programmingError)
    ∧ (∀ b, from_bit_list g b (some o) = .error .programmingError)
    ∧ (∀ a s, resize g a s (some o) = resize g a s (some "little")) := by
  push_neg at ho
  obtain ⟨h1, h2⟩ := ho
  refine ⟨fun v s => ?_, fun a => ?_, fun n s => ?_, fun t => ?_,
    fun v os => ?_, fun b => ?_, fun a s => ?_⟩
  · simp only [from_int, resolveOrder, hne, if_neg hne]
    rw [if_pos ⟨h1, h2⟩]
    rfl
  · simp only [to_int, resolveOrder, hne, if_neg hne]
    rw [if_pos ⟨h1, h2⟩]
    rfl
  · simp only [int_to_bit_list, resolveOrder, hne, if_neg hne]
    rw [if_pos ⟨h1, h2⟩]
    rfl
  · simp only [bit_list_to_int, resolveOrder, hne, if_neg hne]
    rw [if_pos ⟨h1, h2⟩]
    rfl
  · simp only [to_bit_list, resolveOrder, hne, if_neg hne]
    rw [if_pos ⟨h1, h2⟩]
    rfl
  · simp only [from_bit_list, resolveOrder, hne, if_neg hne]
    rw [if_pos ⟨h1, h2⟩]
    rfl
  · simp [resize, resolveOrder, hne, h1]

theorem invalid_order_behaviour_witness :
    from_int "big" 5 1 (some "banana") = .error .programmingError
    ∧ resize "big" [1, 2] 1 (some "banana")
        = resize "big" [1, 2] 1 (some "little") :=
  ⟨(invalid_order_behaviour "big" "banana" (by decide) (by decide)).1 5 1,
   (invalid_order_behaviour "big" "banana" (by decide)
      (by decide)).2.2.2.2.2.2 [1, 2] 1⟩

theorem to_bit_list_big_eval (b : List Nat) (os : Option Nat) :
    to_bit_list "big" b os (some "big")
      = .ok ((bitsLE (8 * b.length) (foldl256 b)).reverse) := by
  simp [to_bit_list, int_to_bit_list, resolveOrder, pyFromBytes]

theorem to_bit_list_little_eval (b : List Nat) (os : Option Nat) :
    to_bit_list "little" b os (some "little")
      = .ok (bitsLE (8 * b.length) (foldl256 b.reverse)) := by
  simp [to_bit_list, int_to_bit_list, resolveOrder, pyFromBytes]

theorem from_bit_list_eval (g bo : String) (bits : List Nat)
    (h : bo = "big" ∨ bo = "little") (h8 : bits.length % 8 = 0) :
    from_bit_list g bits (some bo)
      = pyToBytes (if bo = "big" then foldBits bits else foldBits bits.reverse)
          (bits.length / 8) bo := by
  rcases h with rfl | rfl <;>
    · simp [from_bit_list, bit_list_to_int, resolveOrder, h8]
      rfl

/-- C5 counterexample: with process-wide default order "little" and explicit
order "big", the bit-list round trip does not reproduce the byte 0x01 — it
yields 0x80, because `to_bit_list` does not forward its explicit order to
`int_to_bit_list`, so the bit ordering follows the global default. -/
theorem bit_list_roundtrip_cex :
    (to_bit_list "little" [1] none (some "big")).bind
      (fun bits => from_bit_list "little" bits (some "big")) = .ok [128]
    ∧ ((Except.ok [128] : Except PyError (List Nat)) = .ok [1] → False) :=
  ⟨rfl, by simp⟩

/-- C5 amended: the bit-list round trip
`from_bit_list (to_bit_list b, order=o), order=o) = b` holds for every byte
sequence `b` and order `o` provided the process-wide default order in
effect equals `o` (the explicit order alone does not determine the bit
ordering, because `to_bit_list` calls `int_to_bit_list` without forwarding
it). -/
theorem bit_list_roundtrip_default_order (b : List Nat) (o : String)
    (ho : o = "big" ∨ o = "little") (hb : ∀ x ∈ b, x < 256) :
    (to_bit_list o b none (some o)).bind
      (fun bits => from_bit_list o bits (some o)) = .ok b := by
  have hpow : (256 : Nat) ^ b.length = 2 ^ (8 * b.length) := by
    rw [pow_mul]; norm_num
  rcases ho with rfl | rfl
  · rw [to_bit_list_big_eval]
    show from_bit_list "big" _ (some "big") = _
    have hlen : ((bitsLE (8 * b.length) (foldl256 b)).reverse).length
        = 8 * b.length := by rw [List.length_reverse, bitsLE_length]
    have hfold : foldl256 b < 256 ^ b.length := foldl256_lt b hb
    rw [from_bit_list_eval _ _ _ (Or.inl rfl) (by rw [hlen]; simp)]
    rw [if_pos rfl, foldBits_reverse_bitsLE, hlen,
      Nat.mod_eq_of_lt (hpow ▸ hfold),
      Nat.mul_div_cancel_left _ (by norm_num : (0 : Nat) < 8)]
    unfold pyToBytes
    rw [if_pos hfold, if_pos rfl]
    conv_lhs => rw [show b.length = b.length from rfl]
    rw [natToBytesBE_foldl256 b hb]
  · rw [to_bit_list_little_eval]
    show from_bit_list "little" _ (some "little") = _
    have hlen : (bitsLE (8 * b.length) (foldl256 b.reverse)).length
        = 8 * b.length := bitsLE_length _ _
    have hb' : ∀ x ∈ b.reverse, x < 256 := by
      intro x hx
      exact hb x (List.mem_reverse.mp hx)
    have hfold : foldl256 b.reverse < 256 ^ b.length := by
      have := foldl256_lt b.reverse hb'
      rwa [List.length_reverse] at this
    rw [from_bit_list_eval _ _ _ (Or.inr rfl) (by rw [hlen]; simp)]
    rw [if_neg (by simp), foldBits_reverse_bitsLE, hlen,
      Nat.mod_eq_of_lt (hpow ▸ hfold),
      Nat.mul_div_cancel_left _ (by norm_num : (0 : Nat) < 8)]
    unfold pyToBytes
    rw [if_pos hfold, if_neg (by simp)]
    have hrev : natToBytesBE b.length (foldl256 b.reverse) = b.reverse := by
      have := natToBytesBE_foldl256 b.reverse hb'
      rwa [List.length_reverse] at this
    rw [hrev, List.reverse_reverse]

theorem bit_list_roundtrip_default_order_witness :
    (to_bit_list "big" [1, 171] none (some "big")).bind
      (fun bits => from_bit_list "big" bits (some "big")) = .ok [1, 171] :=
  bit_list_roundtrip_default_order [1, 171] "big" (Or.inl rfl) (by decide)

theorem foldBits_high_bits (v : Nat) :
    foldBits (((bitsLE 8 v).reverse).take 5) = v / 8 % 32 := by
  rw [List.take_reverse, bitsLE_length,
    show (8 : Nat) - 5 = 3 from rfl, bitsLE_drop,
    foldBits_reverse_bitsLE,
    show (8 : Nat) - 3 = 5 from rfl]
  norm_num

theorem foldBits_low_bits (v : Nat) :
    foldBits (((bitsLE 8 v).reverse).drop 5) = v % 8 := by
  rw [List.drop_reverse, bitsLE_length,
    show (8 : Nat) - 5 = 3 from rfl,
    bitsLE_take 3 8 v (by norm_num), foldBits_reverse_bitsLE]
  norm_num

theorem from_int_byte (v : Nat) (hv : v < 256) :
    from_int "big" v 0 none = .ok [v] := by
  by_cases h0 : v = 0
  · subst h0; rfl
  · have hbl1 : 1 ≤ bit_length v := bit_length_pos v h0
    have hbl8 : bit_length v ≤ 8 := by
      apply bit_length_le
      have h256 : (2 : Nat) ^ 8 = 256 := by norm_num
      omega
    have hmin : (bit_length v + 7) / 8 = 1 := by omega
    have hbytes : natToBytesBE 1 v = [v] := by
      show natToBytesBE 0 (v / 256) ++ [v % 256] = [v]
      rw [Nat.div_eq_of_lt hv, Nat.mod_eq_of_lt hv]
      rfl
    simp only [from_int, resolveOrder, bind, Except.bind]
    rw [hmin, hbytes]
    norm_num [resize, resolveOrder]
    rfl

theorem int_to_bit_list_big_eval (n size : Nat) :
    int_to_bit_list "big" n size none = .ok ((bitsLE size n).reverse) := by
  simp [int_to_bit_list, resolveOrder]

theorem bit_list_to_int_big_eval (t : List Nat) :
    bit_list_to_int "big" t none = .ok (foldBits t) := by
  simp [bit_list_to_int, resolveOrder]

theorem to_int_big_none_eval (a : List Nat) :
    to_int "big" a none = .ok (foldl256 a) := by
  simp [to_int, resolveOrder, pyFromBytes]

/-- C4 counterexample: with the default big-endian order, `to_knx` on the
group address bytes `FC 00` yields "31/4/0" — X is read from the first
FIVE bits (31), not the first six (which would give 63) — and `from_knx`
collapses "32/0/0" to the same bytes as "0/0/0", which could not happen if
X were packed into six bits (32 fits in six bits but not in five). -/
theorem knx_group_six_bit_cex :
    to_knx "big" [252, 0] true = .ok (some "31/4/0")
    ∧ ("31/4/0" : String) ≠ "63/4/0"
    ∧ from_knx "big" "32/0/0" = from_knx "big" "0/0/0"
    ∧ from_knx "big" "32/0/0" = .ok (some [0, 0]) :=
  ⟨rfl, by decide, rfl, rfl⟩

/-- C4 amended: in the packed two-byte group form X/Y/Z (with the default
big-endian order), X occupies the top FIVE bits of byte 1 and Y the
remaining three, and Z is the whole second byte: `to_knx` with group=True
recovers X from the first 5 bits and Y from the last 3 of byte 1, and
`from_knx` packs X mod 32 into the top 5 bits and Y mod 8 into the low 3
bits of byte 1. -/
theorem knx_group_five_three_split :
    (∀ v0 v1 : Nat, v0 < 256 →
       to_knx "big" [v0, v1] true
         = .ok (some (knx_format true (v0 / 8) (v0 % 8) v1)))
    ∧ (∀ (address : String) (x y z : Nat),
        matchTriple address.data '.' = none →
        matchTriple address.data '/' = some (x, y, z) →
        z < 256 →
        from_knx "big" address = .ok (some [8 * (x % 32) + y % 8, z])) := by
  constructor
  · intro v0 v1 h0
    have hbits : to_bit_list "big" [v0] none none
        = .ok ((bitsLE 8 v0).reverse) := by
      simp [to_bit_list, int_to_bit_list, resolveOrder, pyFromBytes, foldl256]
    simp only [to_knx, bind, Except.bind]
    norm_num
    simp only [hbits, to_int_big_none_eval, pure, Except.pure, foldl256_single]
    rw [foldBits_high_bits, foldBits_low_bits,
      Nat.mod_eq_of_lt (show v0 / 8 < 32 by omega)]
  · intro address x y z h1 h2 hz
    simp only [from_knx, h1, h2, Option.map, bind, Except.bind]
    simp only [int_to_bit_list_big_eval]
    have hx : ((bitsLE 8 x).reverse).drop (8 - 5) = (bitsLE 5 x).reverse := by
      rw [List.drop_reverse, bitsLE_length,
        show (8 : Nat) - (8 - 5) = 5 from rfl,
        bitsLE_take 5 8 x (by norm_num)]
    have hfx : foldBits ((bitsLE 5 x).reverse) = x % 32 := by
      have h := foldBits_reverse_bitsLE 5 x
      norm_num at h
      exact h
    have hylen : (((bitsLE 8 y).reverse).drop 5).length = 3 := by
      rw [List.length_drop, List.length_reverse, bitsLE_length]
    have hv : foldBits (((bitsLE 8 x).reverse).drop (8 - 5)
          ++ ((bitsLE 8 y).reverse).drop 5) = 8 * (x % 32) + y % 8 := by
      rw [foldBits_append, hylen, hx, hfx, foldBits_low_bits]
      ring
    simp only [bit_list_to_int_big_eval, hv]
    have hvlt : 8 * (x % 32) + y % 8 < 256 := by
      have hx32 := Nat.mod_lt x (show 0 < 32 by norm_num)
      have hy8 := Nat.mod_lt y (show 0 < 8 by norm_num)
      omega
    simp only [from_int_byte _ hvlt, from_int_byte _ hz]
    rfl

theorem knx_group_five_three_split_witness :
    to_knx "big" [252, 0] true
      = .ok (some (knx_format true (252 / 8) (252 % 8) 0))
    ∧ from_knx "big" "1/2/3" = .ok (some [8 * (1 % 32) + 2 % 8, 3]) :=
  ⟨knx_group_five_three_split.1 252 0 (by decide),
   knx_group_five_three_split.2 "1/2/3" 1 2 3 (by decide) (by decide) (by decide)⟩

end bof

/-! ## Helper lemmas about the OPC UA block builder -/

namespace opcua

mutual
theorem itemLen_serialize : ∀ i : Item, itemLen i = (serializeItem i).length
  | .field _ _ v => rfl
  | .block _ cs => by
    show itemsLen cs = (serializeItems cs).length
    exact itemsLen_serialize cs

theorem itemsLen_serialize : ∀ l : List Item,
    itemsLen l = (serializeItems l).length
  | [] => rfl
  | i :: rest => by
    show itemLen i + itemsLen rest = (serializeItem i ++ serializeItems rest).length
    rw [List.length_append, itemLen_serialize i, itemsLen_serialize rest]
end

theorem buildItems_nil (spec : OpcuaSpecData) (dep : String → Option String)
    (fuel : Nat) (defaults : List (String × PyVal)) (value : List Nat) :
    buildItems spec dep fuel [] defaults value = .ok [] := rfl

theorem buildItems_cons (spec : OpcuaSpecData) (dep : String → Option String)
    (fuel : Nat) (t : ItemTemplate) (rest : List ItemTemplate)
    (defaults : List (String × PyVal)) (value : List Nat) :
    buildItems spec dep fuel (t :: rest) defaults value = (do
      let new_item ← factoryAux (buildBlock spec dep fuel) t defaults value
      if value = [] then do
        let others ← buildItems spec dep fuel rest defaults value
        pure (new_item :: others)
      else if value.length ≤ itemLen new_item then
        pure [new_item]
      else do
        let others ← buildItems spec dep fuel rest defaults
          (value.drop (itemLen new_item))
        pure (new_item :: others)) := rfl

theorem buildBlock_succ (spec : OpcuaSpecData) (dep : String → Option String)
    (n : Nat) (args : BlockArgs) :
    buildBlock spec dep (n + 1) args
      = buildBlockAux spec dep (buildBlock spec dep n) args := rfl

theorem factoryAux_field (rec : BlockArgs → Except PyError Item)
    (nm : String) (sz : Nat) (buf : List Nat) :
    factoryAux rec ⟨nm, some "field", sz⟩ [] buf
      = .ok (.field nm sz (buf.take sz)) := by
  simp only [factoryAux, lookupDefault, List.find?_nil, Option.map_none,
    Option.isSome_none, Bool.false_eq_true, if_false, if_pos rfl]
  cases buf with
  | nil => simp
  | cons b bs => simp [List.take_take]

theorem buildBlockAux_itb (spec : OpcuaSpecData) (dep : String → Option String)
    (rec : BlockArgs → Except PyError Item) (t : ItemTemplate) (ty : String)
    (defaults : List (String × PyVal)) (value : List Nat)
    (th : ItemTemplate) (tt : List ItemTemplate)
    (hty : t.type? = some ty)
    (hdep : strStartsWith ty "depends:" = false)
    (hget : get_block_template spec ty = some (th :: tt)) :
    buildBlockAux spec dep rec ⟨none, none, some t, defaults, value⟩
      = (buildLoop (fun t' v => factoryAux rec t' defaults v) (th :: tt)
          value).bind (fun items => .ok (.block ty items)) := by
  simp only [buildBlockAux, hty, hdep, hget, bind, Except.bind, pure,
    Except.pure, Bool.false_eq_true, if_false]

theorem buildBlockAux_type (spec : OpcuaSpecData) (dep : String → Option String)
    (rec : BlockArgs → Except PyError Item) (T : String)
    (name? : Option String) (itb? : Option ItemTemplate)
    (defaults : List (String × PyVal)) (value : List Nat)
    (th : ItemTemplate) (tt : List ItemTemplate)
    (hdep : strStartsWith T "depends:" = false)
    (hget : get_block_template spec T = some (th :: tt)) :
    buildBlockAux spec dep rec ⟨name?, some T, itb?, defaults, value⟩
      = (buildLoop (fun t' v => factoryAux rec t' defaults v) (th :: tt)
          value).bind (fun items => .ok (.block T items)) := by
  simp only [buildBlockAux, hdep, hget, bind, Except.bind, pure,
    Except.pure, Bool.false_eq_true, if_false]

/-- One step of the child-building loop in parse mode (empty defaults):
given the factory's result for the first template and the recursive
result for the rest, the loop either breaks after the first child (when it
absorbs the buffer) or continues; in both cases the children built so far
serialize to the first `s + L'` buffer bytes. -/
theorem buildLoop_step (spec : OpcuaSpecData) (dep : String → Option String)
    (fuel : Nat) (t : ItemTemplate) (rest : List ItemTemplate)
    (buf : List Nat) (s L' : Nat) (item : Item) (items' : List Item)
    (hfac : factoryAux (buildBlock spec dep fuel) t [] buf = .ok item)
    (hser : serializeItem item = buf.take s)
    (hsle : s + L' ≤ buf.length)
    (hrec : buildItems spec dep fuel rest [] (buf.drop s) = .ok items')
    (hser' : serializeItems items' = (buf.drop s).take L') :
    ∃ items, buildItems spec dep fuel (t :: rest) [] buf = .ok items
      ∧ serializeItems items = buf.take (s + L') := by
  have hslen : itemLen item = s := by
    rw [itemLen_serialize, hser, List.length_take]
    omega
  rw [buildItems_cons, hfac]
  simp only [bind, Except.bind, hslen]
  by_cases hbuf : buf = []
  · subst hbuf
    have hs0 : s = 0 := by simp at hsle; omega
    have hL0 : L' = 0 := by simp at hsle; omega
    subst hs0; subst hL0
    rw [if_pos rfl]
    have hrec' : buildItems spec dep fuel rest [] [] = .ok items' := hrec
    rw [hrec']
    refine ⟨item :: items', rfl, ?_⟩
    show serializeItem item ++ serializeItems items' = _
    rw [hser, hser']
    simp
  · rw [if_neg hbuf]
    by_cases hbr : buf.length ≤ s
    · have hseq : s = buf.length := by omega
      have hL0 : L' = 0 := by omega
      subst hL0
      rw [if_pos hbr]
      refine ⟨[item], rfl, ?_⟩
      show serializeItem item ++ ([] : List Nat) = _
      rw [hser, List.append_nil, Nat.add_zero]
    · rw [if_neg hbr, hrec]
      refine ⟨item :: items', rfl, ?_⟩
      show serializeItem item ++ serializeItems items' = _
      rw [hser, hser']
      exact (List.take_add buf s L').symm

/-- Parse-mode soundness of the child-building loop: when the total
declared size of the templates (resolved through the specification to the
given recursion depth) is defined and at most the buffer length, the loop
succeeds and its children serialize to exactly the first `L` buffer
bytes. -/
theorem buildItems_parse (spec : OpcuaSpecData) (dep : String → Option String) :
    ∀ (fuel : Nat) (tmpls : List ItemTemplate) (buf : List Nat) (L : Nat),
      templateSizeAux (blockSize spec fuel) tmpls = some L →
      L ≤ buf.length →
      ∃ items, buildItems spec dep fuel tmpls [] buf = .ok items
        ∧ serializeItems items = buf.take L := by
  intro fuel
  induction fuel with
  | zero =>
    intro tmpls
    induction tmpls with
    | nil =>
      intro buf L hL hle
      cases hL
      exact ⟨[], buildItems_nil _ _ _ _ _, by simp [serializeItems]⟩
    | cons t rest ih =>
      intro buf L hL hle
      obtain ⟨nm, oty, sz⟩ := t
      cases oty with
      | none => simp [templateSizeAux, itemSizeAux, bind, Option.bind] at hL
      | some ty =>
        by_cases hfield : ty = "field"
        · subst hfield
          cases hrest : templateSizeAux (blockSize spec 0) rest with
          | none =>
            simp [templateSizeAux, itemSizeAux, bind, Option.bind, hrest] at hL
          | some L' =>
            simp only [templateSizeAux, itemSizeAux, bind, Option.bind, hrest,
              if_pos rfl, if_true, pure, Option.pure_def, Option.some.injEq] at hL
            obtain ⟨items', hI', hS'⟩ :=
              ih (buf.drop sz) L' hrest (by rw [List.length_drop]; omega)
            obtain ⟨items, hI, hS⟩ := buildLoop_step spec dep 0
              ⟨nm, some "field", sz⟩ rest buf sz L' _ items'
              (factoryAux_field _ nm sz buf) rfl (by omega) hI' hS'
            exact ⟨items, hI, by rw [← hL]; exact hS⟩
        · by_cases hdep2 : strStartsWith ty "depends:"
          · simp [templateSizeAux, itemSizeAux, bind, Option.bind, hfield,
              hdep2] at hL
          · simp [templateSizeAux, itemSizeAux, bind, Option.bind, hfield,
              hdep2, blockSize] at hL
  | succ n ihn =>
    intro tmpls
    induction tmpls with
    | nil =>
      intro buf L hL hle
      cases hL
      exact ⟨[], buildItems_nil _ _ _ _ _, by simp [serializeItems]⟩
    | cons t rest ih =>
      intro buf L hL hle
      obtain ⟨nm, oty, sz⟩ := t
      cases oty with
      | none => simp [templateSizeAux, itemSizeAux, bind, Option.bind] at hL
      | some ty =>
        by_cases hfield : ty = "field"
        · subst hfield
          cases hrest : templateSizeAux (blockSize spec (n + 1)) rest with
          | none =>
            simp [templateSizeAux, itemSizeAux, bind, Option.bind, hrest] at hL
          | some L' =>
            simp only [templateSizeAux, itemSizeAux, bind, Option.bind, hrest,
              if_pos rfl, if_true, pure, Option.pure_def, Option.some.injEq] at hL
            obtain ⟨items', hI', hS'⟩ :=
              ih (buf.drop sz) L' hrest (by rw [List.length_drop]; omega)
            obtain ⟨items, hI, hS⟩ := buildLoop_step spec dep (n + 1)
              ⟨nm, some "field", sz⟩ rest buf sz L' _ items'
              (factoryAux_field _ nm sz buf) rfl (by omega) hI' hS'
            exact ⟨items, hI, by rw [← hL]; exact hS⟩
        · by_cases hdep2 : strStartsWith ty "depends:"
          · simp [templateSizeAux, itemSizeAux, bind, Option.bind, hfield,
              hdep2] at hL
          · have hdepF : strStartsWith ty "depends:" = false := by
              simpa using hdep2
            cases hbs : blockSize spec (n + 1) ty with
            | none =>
              simp [templateSizeAux, itemSizeAux, bind, Option.bind, hfield,
                hdepF, hbs] at hL
            | some s =>
              cases hrest : templateSizeAux (blockSize spec (n + 1)) rest with
              | none =>
                simp [templateSizeAux, itemSizeAux, bind, Option.bind, hfield,
                  hdepF, hbs, hrest] at hL
              | some L' =>
                simp only [templateSizeAux, itemSizeAux, bind, Option.bind,
                  hfield, hdepF, hbs, hrest, if_neg hfield, if_true, pure,
                  Option.pure_def, Bool.false_eq_true, if_false,
                  Option.some.injEq] at hL
                cases hget : get_block_template spec ty with
                | none => rw [blockSize, hget] at hbs; cases hbs
                | some tmpls' =>
                  cases tmpls' with
                  | nil => rw [blockSize, hget] at hbs; cases hbs
                  | cons th tt =>
                    have hsize' : templateSizeAux (blockSize spec n) (th :: tt)
                        = some s := by
                      rw [blockSize, hget] at hbs
                      exact hbs
                    obtain ⟨subitems, hIsub, hSsub⟩ :=
                      ihn (th :: tt) buf s hsize' (by omega)
                    have hfac : factoryAux (buildBlock spec dep (n + 1))
                        ⟨nm, some ty, sz⟩ [] buf
                        = .ok (.block ty subitems) := by
                      have hnf : ¬ ((⟨nm, some ty, sz⟩ : ItemTemplate).type?
                          = some "field") := by simp [hfield]
                      rw [factoryAux, if_neg hnf, buildBlock_succ,
                        buildBlockAux_itb spec dep _ _ ty [] buf th tt rfl
                          hdepF hget]
                      have hIsub' : buildLoop
                          (fun t' v => factoryAux (buildBlock spec dep n) t' [] v)
                          (th :: tt) buf = .ok subitems := hIsub
                      rw [hIsub']
                      rfl
                    obtain ⟨items', hI', hS'⟩ :=
                      ih (buf.drop s) L' hrest (by rw [List.length_drop]; omega)
                    obtain ⟨items, hI, hS⟩ := buildLoop_step spec dep (n + 1)
                      ⟨nm, some ty, sz⟩ rest buf s L' _ items' hfac
                      (by show serializeItems subitems = _; exact hSsub)
                      (by omega) hI' hS'
                    exact ⟨items, hI, by rw [← hL]; exact hS⟩

/-! ## Claims about the OPC UA block builder -/

/-- C1: for every block template whose items' declared sizes total `L` and
every byte buffer of length exactly `L`, parsing the buffer into a block
and then serializing the resulting tree (concatenating leaf byte values in
declared child order) reproduces the original buffer byte for byte. -/
theorem parse_serialize_roundtrip (spec : OpcuaSpecData)
    (dep : String → Option String) (fuel : Nat) (T : String)
    (th : ItemTemplate) (tt : List ItemTemplate) (buf : List Nat) (L : Nat)
    (hdep : strStartsWith T "depends:" = false)
    (hget : get_block_template spec T = some (th :: tt))
    (hsize : templateSizeAux (blockSize spec fuel) (th :: tt) = some L)
    (hlen : buf.length = L) :
    ∃ items, buildBlock spec dep (fuel + 1) ⟨none, some T, none, [], buf⟩
        = .ok (Item.block T items)
      ∧ serializeItems items = buf := by
  obtain ⟨items, hI, hS⟩ :=
    buildItems_parse spec dep fuel (th :: tt) buf L hsize (le_of_eq hlen.symm)
  refine ⟨items, ?_, ?_⟩
  · rw [buildBlock_succ,
      buildBlockAux_type spec dep _ T none none [] buf th tt hdep hget]
    have hI' : buildLoop
        (fun t' v => factoryAux (buildBlock spec dep fuel) t' [] v)
        (th :: tt) buf = .ok items := hI
    rw [hI']
    rfl
  · rw [hS, ← hlen, List.take_length]

theorem parse_serialize_roundtrip_witness :
    ∃ items, buildBlock spec1 dep0 2
        ⟨none, some "TOP", none, [], [10, 20, 30, 40]⟩
        = .ok (Item.block "TOP" items)
      ∧ serializeItems items = [10, 20, 30, 40] :=
  parse_serialize_roundtrip spec1 dep0 1 "TOP" ⟨"h", some "field", 1⟩
    [⟨"sub", some "INNER", 0⟩, ⟨"t", some "field", 1⟩] [10, 20, 30, 40] 4
    (by decide) rfl (by decide) rfl

/-- C2 counterexample: a two-field template (declared sizes 1 and 1)
parsed from a one-byte buffer builds only the first field: the loop breaks
once the buffer is exhausted, and no zero-length second field is appended
to the child list. -/
theorem build_stops_early_cex :
    buildItems spec0 dep0 1
      [⟨"a", some "field", 1⟩, ⟨"b", some "field", 1⟩] [] [7]
      = .ok [Item.field "a" 1 [7]]
    ∧ ¬ ∃ items, buildItems spec0 dep0 1
        [⟨"a", some "field", 1⟩, ⟨"b", some "field", 1⟩] [] [7]
        = .ok items ∧ items.length = 2 := by
  refine ⟨rfl, ?_⟩
  rintro ⟨items, h1, h2⟩
  rw [show buildItems spec0 dep0 1
      [⟨"a", some "field", 1⟩, ⟨"b", some "field", 1⟩] [] [7]
      = .ok [Item.field "a" 1 [7]] from rfl] at h1
  injection h1 with h3
  rw [← h3] at h2
  exact absurd h2 (by decide)

/-- C2 amended: during block construction from a raw byte buffer, once the
(nonempty) remaining buffer's length is at most the length of the child
just built, that child is appended and the loop BREAKS — the remaining
item templates are not built.  (Only when the block is given an empty
buffer are all items built, as empty structures.) -/
theorem build_break_on_exhausted (spec : OpcuaSpecData)
    (dep : String → Option String) (fuel : Nat) (t : ItemTemplate)
    (rest : List ItemTemplate) (defaults : List (String × PyVal))
    (buf : List Nat) (item : Item)
    (hbuf : buf ≠ [])
    (hfac : factory spec dep fuel t defaults buf = .ok item)
    (hlen : buf.length ≤ itemLen item) :
    buildItems spec dep fuel (t :: rest) defaults buf = .ok [item] := by
  have hfac' : factoryAux (buildBlock spec dep fuel) t defaults buf
      = .ok item := hfac
  rw [buildItems_cons, hfac']
  simp only [bind, Except.bind]
  rw [if_neg hbuf, if_pos hlen]
  rfl

theorem build_break_on_exhausted_witness :
    buildItems spec0 dep0 1
      [⟨"a", some "field", 1⟩, ⟨"b", some "field", 1⟩] [] [7]
      = .ok [Item.field "a" 1 [7]] :=
  build_break_on_exhausted spec0 dep0 1 ⟨"a", some "field", 1⟩
    [⟨"b", some "field", 1⟩] [] [7] (Item.field "a" 1 [7])
    (by decide) rfl (by decide)

/-- C3 (code bug): when the caller-supplied defaults map contains an entry
under the field's name, `OpcuaBlock.factory` raises `NameError` instead of
assigning that entry's value to the field: line 202 of
`src/bof/opcua/opcuaframe.py` reads `kwargs["defaults"][template["name"]]`
where `template` is an undefined name (the parameter is `item_template`). -/
theorem factory_field_default_name_error :
    factory spec0 dep0 1 ⟨"pv", some "field", 4⟩
      [("pv", PyVal.bytes [0, 0, 0, 2])] [9, 9] = .error .nameError := rfl

/-- C8: constructing a block whose type is the placeholder
`depends:message_type` with defaults `{message_type: "HEL"}` resolves the
same concrete type `T` as the direct code-table lookup
`get_code_name("message_type", "HEL")`, and the block's name becomes `T`. -/
theorem depends_resolution_equiv (spec : OpcuaSpecData)
    (dep : String → Option String) (fuel : Nat) (name? : Option String)
    (T : String) (th : ItemTemplate) (tt : List ItemTemplate)
    (items : List Item)
    (hcode : get_code_name spec "message_type" (PyVal.str "HEL") = some T)
    (hget : get_block_template spec T = some (th :: tt))
    (hitems : buildItems spec dep fuel (th :: tt)
        [("message_type", PyVal.str "HEL")] [] = .ok items) :
    buildBlock spec dep (fuel + 1)
      ⟨name?, some "depends:message_type", none,
        [("message_type", PyVal.str "HEL")], []⟩
      = .ok (Item.block T items) := by
  rw [buildBlock_succ]
  have hitems' : buildLoop
      (fun t' v => factoryAux (buildBlock spec dep fuel) t'
        [("message_type", PyVal.str "HEL")] v) (th :: tt) [] = .ok items :=
    hitems
  simp only [buildBlockAux, bind, Except.bind, pure, Except.pure,
    show strStartsWith "depends:message_type" "depends:" = true from rfl,
    if_true,
    show dependencyOf "depends:message_type" = "message_type" from rfl,
    show lookupDefault [("message_type", PyVal.str "HEL")] "message_type"
      = some (PyVal.str "HEL") from rfl,
    hcode, hget, hitems']

theorem depends_resolution_equiv_witness :
    buildBlock spec0 dep0 2
      ⟨none, some "depends:message_type", none,
        [("message_type", PyVal.str "HEL")], []⟩
      = .ok (Item.block "HEL_BODY" [Item.field "pv" 1 []]) :=
  depends_resolution_equiv spec0 dep0 1 none "HEL_BODY"
    ⟨"pv", some "field", 1⟩ [] [Item.field "pv" 1 []] rfl rfl rfl

/-- C10: constructing an `OpcuaBlock` with neither a `type` keyword
argument nor an `item_template_block` carrying a "type" key succeeds
without raising, yielding an empty block with no children. -/
theorem empty_block_no_type (spec : OpcuaSpecData)
    (dep : String → Option String) (fuel : Nat) (name? : Option String)
    (defaults : List (String × PyVal)) (value : List Nat)
    (nm : String) (sz : Nat) :
    buildBlock spec dep fuel ⟨name?, none, none, defaults, value⟩
      = .ok (.block (name?.getD "") [])
    ∧ buildBlock spec dep fuel
        ⟨name?, none, some ⟨nm, none, sz⟩, defaults, value⟩
      = .ok (.block (name?.getD "") []) := by
  cases fuel <;> exact ⟨rfl, rfl⟩

end opcua
